import Mathlib

/-
  Verification of the object-utility core of the repository
  (source file exporting pick/omit/merge/clone/get/set/isEmpty/isEqual/...).

  The embedding models the JavaScript runtime values these functions operate
  on as a tagged union inductive type `Value`:
    - vundefined   : the undefined value
    - vnull    : null (note: in JS, typeof null = "object")
    - vbool    : booleans
    - vnum     : numbers, restricted to integers plus NaN (NaN is the one
                 number with NaN === NaN evaluating to false; non-integer
                 floats are not needed by any claim)
    - vstr     : strings (modelled as sequences of characters)
    - varr     : dense arrays (no holes, no expando properties)
    - vobj     : plain objects: insertion-ordered association lists of
                 own enumerable string keys; real JS objects never carry
                 duplicate keys, so well-formedness (nodup keys) appears as a
                 hypothesis where a behaviour depends on it
    - vdate    : Date objects, carrying their instant (a number); a Date has
                 no own enumerable keys, which is all isEqual/merge/clone see

  Out of the modelled domain (documented, not silently altered):
  prototype-inherited properties (including __proto__ and methods), sparse
  array holes, expando properties on arrays and dates, assignment to the
  array length property, functions and symbols.  Where the source would hit
  one of those, the embedding returns an explicit error value, so theorems
  conditioned on success only speak about the modelled fragment.

  Strict equality === is modelled by strictEq: value equality on primitives
  (with NaN never equal to itself), and false on two object values, i.e. the
  embedding always compares structurally distinct references; reference
  aliasing is not representable in a pure value semantics.
-/

namespace ObjUtils

/-- JS numbers as needed by the claims: integers plus NaN. -/
inductive JSNum where
  | nan : JSNum
  | int (n : Int) : JSNum
deriving DecidableEq, Repr

/-- The tagged union of JS runtime values handled by the object utilities. -/
inductive Value where
  | vundefined : Value
  | vnull : Value
  | vbool (b : Bool) : Value
  | vnum (n : JSNum) : Value
  | vstr (s : String) : Value
  | varr (elems : List Value) : Value
  | vobj (fields : List (String × Value)) : Value
  | vdate (time : Int) : Value
deriving Repr

abbrev Fields := List (String × Value)

/-- Strict equality a === b for numbers: NaN is never equal to anything. -/
def numEq : JSNum → JSNum → Bool
  | .int a, .int b => a == b
  | _, _ => false

/-- Strict equality a === b.  Primitives compare by value (NaN excepted);
two object values are distinct references in the embedding, hence false. -/
def strictEq : Value → Value → Bool
  | .vundefined, .vundefined => true
  | .vnull, .vnull => true
  | .vbool a, .vbool b => a == b
  | .vnum a, .vnum b => numEq a b
  | .vstr a, .vstr b => a == b
  | _, _ => false

/-- typeof v = "object" (true for null, arrays, plain objects and dates). -/
def typeofObject : Value → Bool
  | .vnull => true
  | .varr _ => true
  | .vobj _ => true
  | .vdate _ => true
  | _ => false

/-- The guard `typeof v === "object" && v !== null` used by every function. -/
def isObjectLike : Value → Bool
  | .varr _ => true
  | .vobj _ => true
  | .vdate _ => true
  | _ => false

/-- Array.isArray. -/
def isArrV : Value → Bool
  | .varr _ => true
  | _ => false

def isNullV : Value → Bool
  | .vnull => true
  | _ => false

def isUndefV : Value → Bool
  | .vundefined => true
  | _ => false

/-- Property read on a field list: obj.k, giving undefined when absent. -/
def lookupD : Fields → String → Value
  | [], _ => .vundefined
  | (k', v') :: rest, k => if k' == k then v' else lookupD rest k

/-- Own-key membership test on a field list. -/
def hasKeyF : Fields → String → Bool
  | [], _ => false
  | (k', _) :: rest, k => k' == k || hasKeyF rest k

/-- Property write obj.k = v on a field list: replaces the value in place
when the key exists (keeping insertion order), appends otherwise. -/
def setKeyF : Fields → String → Value → Fields
  | [], k, v => [(k, v)]
  | (k', v') :: rest, k, v =>
      if k' == k then (k, v) :: rest else (k', v') :: setKeyF rest k v

mutual
/-- Size measure used for termination of the recursive object walks. -/
def vsize : Value → Nat
  | .varr xs => 1 + lsize xs
  | .vobj f => 1 + fsize f
  | _ => 1
def lsize : List Value → Nat
  | [] => 0
  | x :: xs => 1 + vsize x + lsize xs
def fsize : Fields → Nat
  | [] => 0
  | (_, v) :: f => 1 + vsize v + fsize f
end

/-- Model of the JS call s.split(".") used by get/set on string paths:
split the character list on the dot, never dropping empty segments
(so "".split(".") = [""] and "a..b".split(".") = ["a", "", "b"]). -/
def splitSeg : List Char → String → List String
  | [], acc => [acc]
  | '.' :: cs, acc => acc :: splitSeg cs ""
  | c :: cs, acc => splitSeg cs (acc.push c)

def splitDots (s : String) : List String :=
  splitSeg s.data ""

/-- A path argument: either a dotted string or an explicit segment array
(the two shapes the source accepts; any other argument type is rejected by
the path guard before any traversal, so it needs no representation). -/
inductive PathArg where
  | str (s : String) : PathArg
  | arr (ks : List String) : PathArg

/-- The segment list the source computes:
Array.isArray(path) ? path : path.split("."). -/
def PathArg.segments : PathArg → List String
  | .str s => splitDots s
  | .arr ks => ks

/-- Decimal value of a digit list, none when empty or non-digit. -/
def digitsVal : List Char → Nat → Option Nat
  | [], acc => some acc
  | c :: cs, acc =>
      if c.isDigit then digitsVal cs (acc * 10 + (c.toNat - 48)) else none

/-- Canonical array-index property keys: "0", "1", ... (no leading zeros,
no sign, digits only).  Other keys are not indices of a dense array. -/
def parseIndex (s : String) : Option Nat :=
  match s.data with
  | [] => none
  | ['0'] => some 0
  | c :: cs => if c == '0' then none else digitsVal (c :: cs) 0

/-- The own enumerable properties of a dense array: its canonical index
keys "0", "1", ... in order, paired with the elements. -/
def arrIndexFields (i : Nat) : List Value → Fields
  | [] => []
  | x :: xs => (toString i, x) :: arrIndexFields (i + 1) xs

/-- The own enumerable properties of a value, as seen by a spread or a
for-in-with-hasOwnProperty loop: the fields of a plain object, the index
properties of an array, nothing for a date, nothing for primitives. -/
def toFields : Value → Fields
  | .vobj f => f
  | .varr xs => arrIndexFields 0 xs
  | _ => []

/-- Object.keys. -/
def objKeys (v : Value) : List String :=
  (toFields v).map Prod.fst

/-- Property read v[k] (own properties; prototype chain not modelled).
Reading on primitives yields undefined, matching JS boxing for the
modelled keys; strings and arrays expose length and index properties. -/
def indexV : Value → String → Value
  | .vobj f, k => lookupD f k
  | .varr xs, k =>
      if k == "length" then .vnum (.int xs.length)
      else
        match parseIndex k with
        | some i => xs.getD i .vundefined
        | none => .vundefined
  | .vstr s, k =>
      if k == "length" then .vnum (.int s.data.length)
      else
        match parseIndex k with
        | some i =>
            if i < s.data.length then .vstr (String.mk ((s.data.drop i).take 1))
            else .vundefined
        | none => .vundefined
  | _, _ => .vundefined

/-- The test k in v for the values the set walk can reach (own properties;
the prototype chain is not modelled). -/
def hasKeyV : Value → String → Bool
  | .vobj f, k => hasKeyF f k
  | .varr xs, k =>
      k == "length" ||
        (match parseIndex k with
         | some i => i < xs.length
         | none => false)
  | _, _ => false

/-- Array write at index i: in-bounds indices update the element, larger
indices extend the array, with the intermediate slots reading back as
undefined (JS leaves holes there; holes also read back as undefined). -/
def padSet : List Value → Nat → Value → List Value
  | [], 0, v => [v]
  | [], i + 1, v => .vundefined :: padSet [] i v
  | _ :: xs, 0, v => v :: xs
  | x :: xs, i + 1, v => x :: padSet xs i v

/-- Property assignment v[k] := w as used by the set walk.  Plain objects
always accept the write.  Arrays accept canonical index keys; any other
array key is either the length property (whose write the source only
reaches with a non-numeric value, a RangeError in JS) or an expando
property, which the dense-array model does not carry.  Writing on null is
the TypeError the source runs into, and dates would need expando
properties, also outside the model. -/
def assignKey : Value → String → Value → Except String Value
  | .vobj f, k, v => .ok (.vobj (setKeyF f k v))
  | .varr xs, k, v =>
      (match parseIndex k with
       | some i => .ok (.varr (padSet xs i v))
       | none => .error "unmodelled: non-index property assignment on an array")
  | .vnull, _, _ => .error "TypeError: cannot set properties of null"
  | .vdate _, _, _ => .error "unmodelled: expando property assignment on a date"
  | _, _, _ => .error "TypeError: assignment on a primitive"

mutual
/-- Source function clone: primitives are returned as-is, a date is rebuilt
from its instant, arrays and plain objects are rebuilt by recursively
cloning each element / own enumerable field. -/
def clone : Value → Value
  | .varr xs => .varr (cloneList xs)
  | .vobj f => .vobj (cloneFields f)
  | .vdate t => .vdate t
  | v => v
def cloneList : List Value → List Value
  | [] => []
  | x :: xs => clone x :: cloneList xs
def cloneFields : Fields → Fields
  | [] => []
  | (k, v) :: f => (k, clone v) :: cloneFields f
end

mutual
/-- Source function isEqual.  After the === shortcut, both values must be
object-typed and non-null; an array/non-array mismatch is false; otherwise
the own keys are compared (same count, every key of the first present in
the second) and the values compared recursively.  A date contributes no
own keys, so it behaves as an empty plain object here. -/
def isEqual (a b : Value) : Bool :=
  if strictEq a b then true
  else
    match a, b with
    | .varr xs, .varr ys => (xs.length == ys.length) && isEqualList xs ys
    | .vobj f1, .vobj f2 => (f1.length == f2.length) && isEqualFields f2 f1
    | .vobj f1, .vdate _ => f1.length == 0
    | .vdate _, .vobj f2 => f2.length == 0
    | .vdate _, .vdate _ => true
    | _, _ => false
/-- Pairwise comparison of array elements (the key loop of isEqual
specialised to the index keys of two dense arrays of equal length). -/
def isEqualList : List Value → List Value → Bool
  | [], [] => true
  | x :: xs, y :: ys => isEqual x y && isEqualList xs ys
  | _, _ => false
/-- The key loop of isEqual over the first object: every key must be
present in the second object and the two values must compare equal. -/
def isEqualFields (f2 : Fields) : Fields → Bool
  | [] => true
  | (k, v) :: rest => hasKeyF f2 k && isEqual v (lookupD f2 k) && isEqualFields f2 rest
end

mutual
/-- One source-level assignment pass of merge: fold the own enumerable
entries of a source into the accumulated result fields, assigning
result[key] = mergeVal(result[key], source[key]) left to right. -/
def mergeEntries : Fields → Fields → Fields
  | acc, [] => acc
  | acc, (k, sv) :: rest => mergeEntries (setKeyF acc k (mergeVal (lookupD acc k) sv)) rest
/-- The per-key decision of merge: when both the current result value and
the source value are truthy, object-typed and not arrays (a plain object
or a date), the source line result[key] = merge(targetValue, sourceValue)
stores the recursive merge, whose value is the spread of targetValue
folded with the own enumerable entries of sourceValue (a date source has
no own enumerable entries, so merging it folds nothing into the spread of
targetValue); in every other case result[key] = sourceValue replaces the
value wholesale. -/
def mergeVal : Value → Value → Value
  | .vobj h, .vobj g => .vobj (mergeEntries h g)
  | .vdate _, .vobj g => .vobj (mergeEntries [] g)
  | .vobj h, .vdate _ => .vobj h
  | .vdate _, .vdate _ => .vobj []
  | _, sv => sv
end

/-- Source function merge: target and every source must be object-typed
and non-null (note arrays and dates pass this guard), then the result
starts as a spread shallow copy of target and every source is folded in
from the left. -/
def merge (target : Value) (sources : List Value) : Except String Value :=
  if !isObjectLike target then .error "merge: target must be an object"
  else if sources.any (fun s => !isObjectLike s) then
    .error "merge: all sources must be objects"
  else .ok (.vobj (sources.foldl (fun acc s => mergeEntries acc (toFields s)) (toFields target)))

/-- The walk of get: stepping on null or undefined returns the default;
after the last segment an undefined result is replaced by the default,
anything else (a stored null included) is returned as-is. -/
def getLoop : Value → List String → Value → Value
  | res, [], d => if isUndefV res then d else res
  | res, k :: rest, d => if isNullV res || isUndefV res then d else getLoop (indexV res k) rest d

/-- Source function get: obj must be object-typed and non-null (the path
guard is enforced by the PathArg type), then the segments are walked. -/
def get (obj : Value) (path : PathArg) (deflt : Value) : Except String Value :=
  if !isObjectLike obj then .error "get: obj must be an object"
  else .ok (getLoop obj path.segments deflt)

/-- The walk of set on the cloned structure.  With no segments the source
assigns current[keys[-1]], and keys[-1] is undefined, which JS coerces to
the property key "undefined".  With one segment left the value is
assigned.  Otherwise one walk step runs: on null the k-in-current test of
the source throws; a segment whose value is absent or not object-typed is
replaced by a fresh empty object, while null, arrays and dates (all
object-typed) are descended into as they are. -/
def setGo : Value → List String → Value → Except String Value
  | current, [], v => assignKey current "undefined" v
  | current, [k], v => assignKey current k v
  | current, k :: k2 :: rest, v =>
      if isNullV current then .error "TypeError: cannot use the in operator on null"
      else
        match setGo (if hasKeyV current k && typeofObject (indexV current k) then
            indexV current k else Value.vobj []) (k2 :: rest) v with
        | .error e => .error e
        | .ok child2 => assignKey current k child2

/-- Source function set: obj must be object-typed and non-null, the result
is a deep clone of obj mutated along the path. -/
def set (obj : Value) (path : PathArg) (v : Value) : Except String Value :=
  if !isObjectLike obj then .error "set: obj must be an object"
  else setGo (clone obj) path.segments v

mutual
/-- No NaN anywhere inside the value (NaN is the one value on which === is
not reflexive, which isEqual inherits). -/
def nanFree : Value → Bool
  | .vnum .nan => false
  | .varr xs => nanFreeList xs
  | .vobj f => nanFreeFields f
  | _ => true
def nanFreeList : List Value → Bool
  | [] => true
  | x :: xs => nanFree x && nanFreeList xs
def nanFreeFields : Fields → Bool
  | [] => true
  | (_, v) :: f => nanFree v && nanFreeFields f
end

/-- Keys of a field list are pairwise distinct (every JS object satisfies
this; association lists with repeated keys do not arise from JS values). -/
def nodupF : Fields → Bool
  | [] => true
  | (k, _) :: f => !hasKeyF f k && nodupF f

mutual
/-- Well-formed value: every object layer inside has pairwise distinct
keys, i.e. the value is the image of an actual JS value. -/
def WFv : Value → Bool
  | .varr xs => WFlist xs
  | .vobj f => nodupF f && WFfields f
  | _ => true
def WFlist : List Value → Bool
  | [] => true
  | x :: xs => WFv x && WFlist xs
def WFfields : Fields → Bool
  | [] => true
  | (_, v) :: f => WFv v && WFfields f
end

/-! Helper lemmas. -/

mutual
/-- In a pure value semantics clone is the identity: it only refreshes
references, which the embedding does not track. -/
theorem clone_id : ∀ v : Value, clone v = v
  | .vundefined => rfl
  | .vnull => rfl
  | .vbool _ => rfl
  | .vnum _ => rfl
  | .vstr _ => rfl
  | .vdate _ => rfl
  | .varr xs => by simp [clone, cloneList_id xs]
  | .vobj f => by simp [clone, cloneFields_id f]
theorem cloneList_id : ∀ xs : List Value, cloneList xs = xs
  | [] => rfl
  | x :: xs => by simp [cloneList, clone_id x, cloneList_id xs]
theorem cloneFields_id : ∀ f : Fields, cloneFields f = f
  | [] => rfl
  | (k, v) :: f => by simp [cloneFields, clone_id v, cloneFields_id f]
end

theorem lookupD_setKeyF : ∀ (f : Fields) (k : String) (v : Value),
    lookupD (setKeyF f k v) k = v
  | [], k, v => by simp [setKeyF, lookupD]
  | (k', v') :: rest, k, v => by
      by_cases h : k' = k
      · simp [setKeyF, h, lookupD]
      · simp [setKeyF, h, lookupD, lookupD_setKeyF rest k v]

theorem padSet_read : ∀ (xs : List Value) (i : Nat) (v : Value),
    (padSet xs i v)[i]? = some v
  | [], 0, _ => by simp [padSet]
  | [], i + 1, v => by simpa [padSet] using padSet_read [] i v
  | _ :: _, 0, _ => by simp [padSet]
  | _ :: xs, i + 1, v => by simpa [padSet] using padSet_read xs i v

theorem parseIndex_ne_length (k : String) (i : Nat) (h : parseIndex k = some i) :
    (k == "length") = false := by
  cases hb : (k == "length") with
  | false => rfl
  | true =>
      rw [eq_of_beq hb] at h
      rw [show parseIndex "length" = none from rfl] at h
      exact Option.noConfusion h

/-- A successful property assignment yields a plain object or an array. -/
theorem assignKey_ok_shape (current : Value) (k : String) (v r : Value)
    (h : assignKey current k v = Except.ok r) :
    (∃ f, r = Value.vobj f) ∨ (∃ xs, r = Value.varr xs) := by
  cases current with
  | vobj f => simp [assignKey] at h; exact Or.inl ⟨_, h.symm⟩
  | varr xs =>
      cases hp : parseIndex k with
      | some i => simp [assignKey, hp] at h; exact Or.inr ⟨_, h.symm⟩
      | none => simp [assignKey, hp] at h
  | vundefined => simp [assignKey] at h
  | vnull => simp [assignKey] at h
  | vbool b => simp [assignKey] at h
  | vnum m => simp [assignKey] at h
  | vstr s => simp [assignKey] at h
  | vdate t => simp [assignKey] at h

/-- Reading back the key just assigned returns the assigned value. -/
theorem indexV_assignKey (current : Value) (k : String) (v r : Value)
    (h : assignKey current k v = Except.ok r) : indexV r k = v := by
  cases current with
  | vobj f =>
      simp [assignKey] at h
      simp [← h, indexV, lookupD_setKeyF]
  | varr xs =>
      cases hp : parseIndex k with
      | some i =>
          simp [assignKey, hp] at h
          simp [← h, indexV, parseIndex_ne_length k i hp, hp, padSet_read]
      | none => simp [assignKey, hp] at h
  | vundefined => simp [assignKey] at h
  | vnull => simp [assignKey] at h
  | vbool b => simp [assignKey] at h
  | vnum m => simp [assignKey] at h
  | vstr s => simp [assignKey] at h
  | vdate t => simp [assignKey] at h

/-- A successful set walk yields a plain object or an array. -/
theorem setGo_ok_shape (current : Value) (ks : List String) (v r : Value)
    (h : setGo current ks v = Except.ok r) :
    (∃ f, r = Value.vobj f) ∨ (∃ xs, r = Value.varr xs) := by
  cases ks with
  | nil => exact assignKey_ok_shape current "undefined" v r (by simpa [setGo] using h)
  | cons k1 rest =>
      cases rest with
      | nil => exact assignKey_ok_shape current k1 v r (by simpa [setGo] using h)
      | cons k2 rest =>
          cases hnull : isNullV current with
          | true => rw [setGo, if_pos (by simp [hnull])] at h; exact absurd h (by simp)
          | false =>
              rw [setGo, if_neg (by simp [hnull])] at h
              cases hrec : setGo (if hasKeyV current k1 && typeofObject (indexV current k1) then
                  indexV current k1 else Value.vobj []) (k2 :: rest) v with
              | error e => rw [hrec] at h; exact absurd h (by simp)
              | ok child2 => rw [hrec] at h; exact assignKey_ok_shape current k1 child2 r h

/-- One step of the get walk on a value that is neither null nor
undefined descends into the named property. -/
theorem getLoop_cons (res : Value) (k : String) (rest : List String) (d : Value)
    (h1 : isNullV res = false) (h2 : isUndefV res = false) :
    getLoop res (k :: rest) d = getLoop (indexV res k) rest d := by
  simp [getLoop, h1, h2]

/-- Walking the path just written by the set walk reads back the written
value (for a non-empty segment list). -/
theorem getLoop_setGo : ∀ (ks : List String) (current v r : Value),
    ks ≠ [] → setGo current ks v = Except.ok r → getLoop r ks Value.vundefined = v
  | [], _, _, _, hne, _ => absurd rfl hne
  | [k], current, v, r, _, h => by
      have h' : assignKey current k v = Except.ok r := by simpa [setGo] using h
      have hidx := indexV_assignKey current k v r h'
      rcases assignKey_ok_shape current k v r h' with ⟨f, rfl⟩ | ⟨xs, rfl⟩ <;>
        · simp [getLoop, isNullV, isUndefV, hidx]
          cases v <;> simp [isUndefV]
  | k1 :: k2 :: rest, current, v, r, _, h => by
      cases hnull : isNullV current with
      | true => rw [setGo, if_pos (by simp [hnull])] at h; exact absurd h (by simp)
      | false =>
          rw [setGo, if_neg (by simp [hnull])] at h
          cases hrec : setGo (if hasKeyV current k1 && typeofObject (indexV current k1) then
              indexV current k1 else Value.vobj []) (k2 :: rest) v with
          | error e => rw [hrec] at h; exact absurd h (by simp)
          | ok child2 =>
              rw [hrec] at h
              simp only [] at h
              have hik := indexV_assignKey current k1 child2 r h
              have hrt := getLoop_setGo (k2 :: rest) _ v child2 (by simp) hrec
              rcases assignKey_ok_shape current k1 child2 r h with ⟨f, rfl⟩ | ⟨xs, rfl⟩
              · rw [getLoop_cons (Value.vobj f) _ _ _ rfl rfl, hik]; exact hrt
              · rw [getLoop_cons (Value.varr xs) _ _ _ rfl rfl, hik]; exact hrt

theorem hasKeyF_of_mem : ∀ (f : Fields) (k : String) (v : Value),
    (k, v) ∈ f → hasKeyF f k = true
  | [], _, _, h => absurd h (List.not_mem_nil _)
  | (k', v') :: rest, k, v, h => by
      rcases List.mem_cons.mp h with h | h
      · cases h; simp [hasKeyF]
      · simp [hasKeyF, hasKeyF_of_mem rest k v h]

theorem lookupD_of_nodup : ∀ (f : Fields) (k : String) (v : Value),
    nodupF f = true → (k, v) ∈ f → lookupD f k = v
  | [], _, _, _, h => absurd h (List.not_mem_nil _)
  | (k', v') :: rest, k, v, hn, h => by
      simp [nodupF] at hn
      rcases List.mem_cons.mp h with h | h
      · cases h; simp [lookupD]
      · have hk : k' ≠ k := by
          intro he
          subst he
          rw [hasKeyF_of_mem rest k' v h] at hn
          exact absurd hn.1 (by simp)
        simp [lookupD, hk, lookupD_of_nodup rest k v hn.2 h]

mutual
/-- Structural reflexivity of isEqual on NaN-free well-formed values (the
embedding form of comparing two structurally identical, distinct
references). -/
theorem isEqual_refl : ∀ v : Value, nanFree v = true → WFv v = true → isEqual v v = true
  | .vundefined, _, _ => rfl
  | .vnull, _, _ => rfl
  | .vbool b, _, _ => by simp [isEqual, strictEq]
  | .vnum m, h, _ => by
      cases m with
      | nan => exact absurd h (by simp [nanFree])
      | int i => simp [isEqual, strictEq, numEq]
  | .vstr s, _, _ => by simp [isEqual, strictEq]
  | .vdate t, _, _ => by simp [isEqual, strictEq]
  | .varr xs, h1, h2 => by
      have hl := isEqualList_refl xs (by simpa [nanFree] using h1) (by simpa [WFv] using h2)
      simp [isEqual, strictEq, hl]
  | .vobj f, h1, h2 => by
      have h2' : nodupF f = true ∧ WFfields f = true := by simpa [WFv] using h2
      have hf := isEqualFields_refl f f
        (fun k v hm => ⟨hasKeyF_of_mem f k v hm, lookupD_of_nodup f k v h2'.1 hm⟩)
        (by simpa [nanFree] using h1) h2'.2
      simp [isEqual, strictEq, hf]
theorem isEqualList_refl : ∀ xs : List Value, nanFreeList xs = true → WFlist xs = true →
    isEqualList xs xs = true
  | [], _, _ => rfl
  | x :: xs, h1, h2 => by
      simp [nanFreeList] at h1
      simp [WFlist] at h2
      simp [isEqualList, isEqual_refl x h1.1 h2.1, isEqualList_refl xs h1.2 h2.2]
theorem isEqualFields_refl : ∀ (g f : Fields),
    (∀ k v, (k, v) ∈ f → hasKeyF g k = true ∧ lookupD g k = v) →
    nanFreeFields f = true → WFfields f = true → isEqualFields g f = true
  | _, [], _, _, _ => rfl
  | g, (k, v) :: rest, hmem, h1, h2 => by
      simp [nanFreeFields] at h1
      simp [WFfields] at h2
      have hk := hmem k v (List.mem_cons_self _ _)
      have htail := isEqualFields_refl g rest
        (fun k2 v2 hm => hmem k2 v2 (List.mem_cons_of_mem _ hm)) h1.2 h2.2
      simp [isEqualFields, hk.1, hk.2, isEqual_refl v h1.1 h2.1, htail]
end

theorem lookupD_pres : ∀ (f : Fields) (k : String),
    WFfields f = true → nanFreeFields f = true →
    WFv (lookupD f k) = true ∧ nanFree (lookupD f k) = true
  | [], _, _, _ => ⟨rfl, rfl⟩
  | (k', v') :: rest, k, hw, hn => by
      simp [WFfields] at hw
      simp [nanFreeFields] at hn
      by_cases h : k' = k
      · simp [lookupD, h]
        exact ⟨hw.1, hn.1⟩
      · simp [lookupD, h]
        exact lookupD_pres rest k hw.2 hn.2

theorem hasKeyF_setKeyF : ∀ (f : Fields) (k k' : String) (v : Value),
    hasKeyF (setKeyF f k v) k' = true ↔ (hasKeyF f k' = true ∨ k = k')
  | [], k, k', v => by simp [setKeyF, hasKeyF]
  | (k2, v2) :: rest, k, k', v => by
      by_cases h : k2 = k
      · subst h
        simp [setKeyF, hasKeyF]
        tauto
      · simp [setKeyF, h, hasKeyF, hasKeyF_setKeyF rest k k' v]
        tauto

theorem setKeyF_pres : ∀ (f : Fields) (k : String) (v : Value),
    nodupF f = true → WFfields f = true → nanFreeFields f = true →
    WFv v = true → nanFree v = true →
    nodupF (setKeyF f k v) = true ∧ WFfields (setKeyF f k v) = true ∧
      nanFreeFields (setKeyF f k v) = true
  | [], k, v, _, _, _, hw, hn => by
      simp [setKeyF, nodupF, WFfields, nanFreeFields, hasKeyF, hw, hn]
  | (k2, v2) :: rest, k, v, hnd, hwf, hnf, hw, hn => by
      simp [nodupF] at hnd
      simp [WFfields] at hwf
      simp [nanFreeFields] at hnf
      by_cases h : k2 = k
      · subst h
        simp [setKeyF, nodupF, WFfields, nanFreeFields, hnd.1, hnd.2, hwf.2, hnf.2, hw, hn]
      · have IH := setKeyF_pres rest k v hnd.2 hwf.2 hnf.2 hw hn
        have hkk : hasKeyF (setKeyF rest k v) k2 = false := by
          rcases Bool.eq_false_or_eq_true (hasKeyF (setKeyF rest k v) k2) with ht | hf
          · rcases (hasKeyF_setKeyF rest k k2 v).mp ht with hh | hh
            · rw [hnd.1] at hh
              exact absurd hh (by simp)
            · exact absurd hh.symm h
          · exact hf
        simp [setKeyF, h, nodupF, WFfields, nanFreeFields, hkk, IH.1, IH.2.1, IH.2.2,
          hwf.1, hnf.1]

theorem merge_pres_aux : ∀ n : Nat,
    (∀ tv sv : Value, vsize sv < n → WFv tv = true → nanFree tv = true →
      WFv sv = true → nanFree sv = true →
      WFv (mergeVal tv sv) = true ∧ nanFree (mergeVal tv sv) = true) ∧
    (∀ src : Fields, fsize src < n → ∀ acc : Fields,
      nodupF acc = true → WFfields acc = true → nanFreeFields acc = true →
      WFfields src = true → nanFreeFields src = true →
      nodupF (mergeEntries acc src) = true ∧ WFfields (mergeEntries acc src) = true ∧
        nanFreeFields (mergeEntries acc src) = true) := by
  intro n
  induction n with
  | zero => exact ⟨fun _ _ h => absurd h (by omega), fun _ h => absurd h (by omega)⟩
  | succ n ih =>
      constructor
      · intro tv sv hs htw htn hsw hsn
        cases sv with
        | vobj g =>
            have hg : fsize g < n := by simp [vsize] at hs; omega
            have hsw' : nodupF g = true ∧ WFfields g = true := by simpa [WFv] using hsw
            have hsn' : nanFreeFields g = true := by simpa [nanFree] using hsn
            cases tv with
            | vobj h0 =>
                have htw' : nodupF h0 = true ∧ WFfields h0 = true := by simpa [WFv] using htw
                have htn' : nanFreeFields h0 = true := by simpa [nanFree] using htn
                have := ih.2 g hg h0 htw'.1 htw'.2 htn' hsw'.2 hsn'
                simp [mergeVal, WFv, nanFree, this.1, this.2.1, this.2.2]
            | vdate t =>
                have := ih.2 g hg [] rfl rfl rfl hsw'.2 hsn'
                simp [mergeVal, WFv, nanFree, this.1, this.2.1, this.2.2]
            | vundefined => simp [mergeVal]; exact ⟨hsw, hsn⟩
            | vnull => simp [mergeVal]; exact ⟨hsw, hsn⟩
            | vbool b => simp [mergeVal]; exact ⟨hsw, hsn⟩
            | vnum m => simp [mergeVal]; exact ⟨hsw, hsn⟩
            | vstr s => simp [mergeVal]; exact ⟨hsw, hsn⟩
            | varr xs => simp [mergeVal]; exact ⟨hsw, hsn⟩
        | vdate t =>
            cases tv with
            | vobj h0 => simp [mergeVal]; exact ⟨htw, htn⟩
            | vdate t2 => simp [mergeVal, WFv, nanFree, nodupF, WFfields, nanFreeFields]
            | vundefined => simp [mergeVal]; exact ⟨hsw, hsn⟩
            | vnull => simp [mergeVal]; exact ⟨hsw, hsn⟩
            | vbool b => simp [mergeVal]; exact ⟨hsw, hsn⟩
            | vnum m => simp [mergeVal]; exact ⟨hsw, hsn⟩
            | vstr s => simp [mergeVal]; exact ⟨hsw, hsn⟩
            | varr xs => simp [mergeVal]; exact ⟨hsw, hsn⟩
        | vundefined => cases tv <;> simp [mergeVal] <;> exact ⟨hsw, hsn⟩
        | vnull => cases tv <;> simp [mergeVal] <;> exact ⟨hsw, hsn⟩
        | vbool b => cases tv <;> simp [mergeVal] <;> exact ⟨hsw, hsn⟩
        | vnum m => cases tv <;> simp [mergeVal] <;> exact ⟨hsw, hsn⟩
        | vstr s => cases tv <;> simp [mergeVal] <;> exact ⟨hsw, hsn⟩
        | varr xs => cases tv <;> simp [mergeVal] <;> exact ⟨hsw, hsn⟩
      · intro src hlt acc h1 h2 h3 h4 h5
        cases src with
        | nil => simpa [mergeEntries] using ⟨h1, h2, h3⟩
        | cons kv rest =>
            obtain ⟨k, sv⟩ := kv
            simp [WFfields] at h4
            simp [nanFreeFields] at h5
            have htv := lookupD_pres acc k h2 h3
            have hsv0 : vsize sv < n := by simp [fsize] at hlt; omega
            have hnew := ih.1 (lookupD acc k) sv hsv0 htv.1 htv.2 h4.1 h5.1
            have hsk := setKeyF_pres acc k _ h1 h2 h3 hnew.1 hnew.2
            have hrest : fsize rest < n := by simp [fsize] at hlt; omega
            simpa [mergeEntries] using
              ih.2 rest hrest (setKeyF acc k _) hsk.1 hsk.2.1 hsk.2.2 h4.2 h5.2

/-- The merge fold preserves well-formedness and NaN-freeness. -/
theorem mergeEntries_good (src acc : Fields)
    (h1 : nodupF acc = true) (h2 : WFfields acc = true) (h3 : nanFreeFields acc = true)
    (h4 : WFfields src = true) (h5 : nanFreeFields src = true) :
    nodupF (mergeEntries acc src) = true ∧ WFfields (mergeEntries acc src) = true ∧
      nanFreeFields (mergeEntries acc src) = true :=
  (merge_pres_aux (fsize src + 1)).2 src (by omega) acc h1 h2 h3 h4 h5

/-- An ordered-sequence source value is never deep-merged: it replaces. -/
theorem mergeVal_arr_right (tv : Value) (ys : List Value) :
    mergeVal tv (.varr ys) = .varr ys := by
  cases tv <;> rfl

/-- An ordered-sequence current value is never deep-merged into: the
source value replaces it. -/
theorem mergeVal_arr_left (xs : List Value) (sv : Value) :
    mergeVal (.varr xs) sv = sv := by
  cases sv <;> rfl

/-! Claim theorems. -/

/-- C1: counterexample to the round-trip claim as stated.  With the empty
segment-array path, set succeeds — the source assigns current[keys[-1]],
and JS coerces the undefined key to the string "undefined" — while get
walks no segment and returns the whole mapping, which differs from the
stored value. -/
theorem c1_empty_path_counterexample :
    set (.vobj []) (.arr []) (.vnum (.int 1)) =
      .ok (.vobj [("undefined", .vnum (.int 1))]) ∧
    get (.vobj [("undefined", .vnum (.int 1))]) (.arr []) .vundefined =
      .ok (.vobj [("undefined", .vnum (.int 1))]) ∧
    Value.vobj [("undefined", .vnum (.int 1))] ≠ Value.vnum (.int 1) :=
  ⟨rfl, rfl, fun h => Value.noConfusion h⟩

/-- C1 (amended): for every object-typed obj, every path with a non-empty
segment list and every value for which set succeeds, get (with no default)
over the result of set returns exactly the stored value. -/
theorem c1_get_set_roundtrip (obj : Value) (p : PathArg) (v r : Value)
    (hne : p.segments ≠ []) (hs : set obj p v = .ok r) :
    get r p .vundefined = .ok v := by
  cases ho : isObjectLike obj with
  | false => rw [set, ho] at hs; simp at hs
  | true =>
      rw [set, ho] at hs
      simp only [Bool.not_true, Bool.false_eq_true, if_false] at hs
      have hshape := setGo_ok_shape (clone obj) p.segments v r hs
      have hrt := getLoop_setGo p.segments (clone obj) v r hne hs
      rcases hshape with ⟨f, rfl⟩ | ⟨xs, rfl⟩ <;> simp [get, isObjectLike, hrt]

/-- C1 witness: the amended round trip applied at obj-empty, path a.b as a
segment array, value 7. -/
theorem c1_get_set_roundtrip_witness :
    get (.vobj [("a", .vobj [("b", .vnum (.int 7))])]) (.arr ["a", "b"]) .vundefined =
      .ok (.vnum (.int 7)) :=
  c1_get_set_roundtrip (.vobj []) (.arr ["a", "b"]) (.vnum (.int 7))
    (.vobj [("a", .vobj [("b", .vnum (.int 7))])]) (by simp [PathArg.segments]) rfl

/-- C2: counterexample — a stored null at an intermediate segment is not
replaced by a fresh empty mapping (typeof null is "object", so the
replacement test passes it through); the walk descends into null and set
fails with a TypeError instead of never failing. -/
theorem c2_null_intermediate_counterexample :
    set (.vobj [("a", .vnull)]) (.str "a.b") (.vnum (.int 1)) =
      .error "TypeError: cannot set properties of null" := rfl

/-- C2 (amended): during the walk of set, the value at an intermediate
segment is replaced by a fresh empty mapping exactly when the key is
absent or its value is not object-typed (a scalar or undefined); the rest
of the walk then runs inside that fresh mapping and its outcome is stored
back at the segment.  Stored null, arrays and dates are object-typed and
are descended into unreplaced (a null intermediate then makes set throw,
as the counterexample shows). -/
theorem c2_set_walk_replacement (f : Fields) (k1 : String) (rest : List String) (v : Value)
    (hne : rest ≠ []) (hscalar : typeofObject (lookupD f k1) = false) :
    set (.vobj f) (.arr (k1 :: rest)) v =
      (setGo (.vobj []) rest v).map (fun child => Value.vobj (setKeyF f k1 child)) := by
  cases rest with
  | nil => exact absurd rfl hne
  | cons k2 rest2 =>
      have hcond : (hasKeyV (Value.vobj f) k1 && typeofObject (indexV (Value.vobj f) k1)) =
          false := by
        simp [indexV, hscalar]
      cases hrec : setGo (Value.vobj []) (k2 :: rest2) v with
      | error e =>
          simp [set, isObjectLike, PathArg.segments, clone_id, setGo, isNullV, hcond, hrec,
            Except.map]
      | ok child =>
          simp [set, isObjectLike, PathArg.segments, clone_id, setGo, isNullV, hcond, hrec,
            Except.map, assignKey]

/-- C2 witness: a number at the intermediate segment is overwritten by a
fresh mapping into which the rest of the walk proceeds. -/
theorem c2_set_walk_replacement_witness :
    set (.vobj [("a", .vnum (.int 5))]) (.arr ["a", "b"]) (.vnum (.int 7)) =
      (setGo (.vobj []) ["b"] (.vnum (.int 7))).map
        (fun child => Value.vobj (setKeyF [("a", .vnum (.int 5))] "a" child)) :=
  c2_set_walk_replacement [("a", .vnum (.int 5))] "a" ["b"] (.vnum (.int 7))
    (by simp) rfl

/-- C3: counterexample — an ordered-sequence source passes the merge guard
(typeof of an array is "object" and an array is not null): no error is
raised and the index properties of the array are merged into the result. -/
theorem c3_array_source_counterexample :
    merge (.vobj []) [.varr [.vnum (.int 1)]] = .ok (.vobj [("0", .vnum (.int 1))]) := rfl

/-- C3 (amended): merge returns a result exactly when the target and every
source are object-typed and non-null; only null and non-object-typed
primitives are rejected with the InvalidArgument errors, while arrays and
dates pass validation, after which the merging fold itself never fails. -/
theorem c3_merge_guard (target : Value) (sources : List Value) :
    (∃ r, merge target sources = .ok r) ↔
      (isObjectLike target = true ∧ ∀ s ∈ sources, isObjectLike s = true) := by
  cases ht : isObjectLike target with
  | false => simp [merge, ht]
  | true =>
      cases ha : sources.any (fun s => !isObjectLike s) with
      | false =>
          have hok : merge target sources =
              .ok (.vobj (sources.foldl (fun acc s => mergeEntries acc (toFields s))
                (toFields target))) := by
            simp [merge, ht, ha]
          have hall : ∀ s ∈ sources, isObjectLike s = true := by
            intro s hs
            have hx := List.any_eq_false.mp ha s hs
            simpa using hx
          rw [hok]
          exact ⟨fun _ => ⟨rfl, hall⟩, fun _ => ⟨_, rfl⟩⟩
      | true =>
          have herr : merge target sources = .error "merge: all sources must be objects" := by
            simp [merge, ht, ha]
          have hbad : ∃ s ∈ sources, isObjectLike s = false := by
            simpa [List.any_eq_true, Bool.not_eq_true'] using ha
          rw [herr]
          constructor
          · rintro ⟨r, hr⟩
            exact absurd hr (by simp)
          · rintro ⟨-, hall⟩
            obtain ⟨s, hs, hf⟩ := hbad
            rw [hall s hs] at hf
            exact absurd hf (by simp)

/-- C4: when either the current value or the source value at a key is an
ordered-sequence, merge replaces the value at that key wholesale with the
source value, never concatenating or element-merging: an array source
replaces an array (the merge of a maps-to-[1,2] with a maps-to-[3,4] is
covered by the first conjunct), an array source replaces any current
value, and a mapping source replaces a current array. -/
theorem c4_merge_sequence_replacement (k : String) (xs ys : List Value) (tv : Value)
    (g : Fields) :
    merge (.vobj [(k, .varr xs)]) [.vobj [(k, .varr ys)]] = .ok (.vobj [(k, .varr ys)]) ∧
    merge (.vobj [(k, tv)]) [.vobj [(k, .varr ys)]] = .ok (.vobj [(k, .varr ys)]) ∧
    merge (.vobj [(k, .varr xs)]) [.vobj [(k, .vobj g)]] = .ok (.vobj [(k, .vobj g)]) := by
  refine ⟨?_, ?_, ?_⟩
  · simp [merge, isObjectLike, mergeEntries, toFields, lookupD, setKeyF, mergeVal_arr_right]
  · simp [merge, isObjectLike, mergeEntries, toFields, lookupD, setKeyF, mergeVal_arr_right]
  · simp [merge, isObjectLike, mergeEntries, toFields, lookupD, setKeyF, mergeVal_arr_left]

/-- C5: counterexample — NaN is an acyclic number value, clone returns it
unchanged, and isEqual(NaN, NaN) is false (strict equality fails on NaN
and NaN is not object-typed), so the round trip claim fails at NaN. -/
theorem c5_nan_counterexample :
    isEqual (clone (.vnum .nan)) (.vnum .nan) = false := rfl

/-- C5 (amended): for every NaN-free well-formed value v,
isEqual(clone v, v) is true. -/
theorem c5_clone_isEqual (v : Value) (h1 : nanFree v = true) (h2 : WFv v = true) :
    isEqual (clone v) v = true := by
  rw [clone_id]
  exact isEqual_refl v h1 h2

/-- C5 witness: the amended clone round trip at a nested concrete value. -/
theorem c5_clone_isEqual_witness :
    isEqual (clone (.vobj [("a", .varr [.vnum (.int 1), .vstr "x"]), ("d", .vdate 5)]))
      (.vobj [("a", .varr [.vnum (.int 1), .vstr "x"]), ("d", .vdate 5)]) = true :=
  c5_clone_isEqual (.vobj [("a", .varr [.vnum (.int 1), .vstr "x"]), ("d", .vdate 5)]) rfl rfl

/-- C6: counterexample — isEqual is not reflexive at the primitive number
NaN: the strict-equality shortcut fails (NaN is never strictly equal to
itself) and the number then fails the object-type test, so false is
returned. -/
theorem c6_nan_counterexample :
    isEqual (.vnum .nan) (.vnum .nan) = false := rfl

/-- C6 (amended): isEqual(x, x) is true for every NaN-free well-formed
value x (in the embedding the two arguments are structurally identical
distinct references; same-reference calls in JS are also true, via the
identity shortcut). -/
theorem c6_isEqual_refl (x : Value) (h1 : nanFree x = true) (h2 : WFv x = true) :
    isEqual x x = true :=
  isEqual_refl x h1 h2

/-- C6 witness: reflexivity at a concrete nested value. -/
theorem c6_isEqual_refl_witness :
    isEqual (.vobj [("k", .vobj [("m", .vbool true)]), ("l", .varr [.vnull])])
      (.vobj [("k", .vobj [("m", .vbool true)]), ("l", .varr [.vnull])]) = true :=
  c6_isEqual_refl (.vobj [("k", .vobj [("m", .vbool true)]), ("l", .varr [.vnull])]) rfl rfl

/-- C7: counterexample — with a NaN inside the first mapping,
merge(merge(a, b), c) and merge(a, b, c) return identical mappings whose
deep comparison under isEqual is nevertheless false, because isEqual is
not reflexive at NaN; so the claim as stated (deep-equal under isEqual)
fails. -/
theorem c7_nan_counterexample :
    merge (.vobj [("x", .vnum .nan)]) [.vobj []] = .ok (.vobj [("x", .vnum .nan)]) ∧
    merge (.vobj [("x", .vnum .nan)]) [.vobj [], .vobj []] = .ok (.vobj [("x", .vnum .nan)]) ∧
    isEqual (.vobj [("x", .vnum .nan)]) (.vobj [("x", .vnum .nan)]) = false :=
  ⟨rfl, rfl, rfl⟩

/-- C7 (amended): for NaN-free well-formed mappings a, b, c, the results of
merge(merge(a, b), c) and merge(a, b, c) are the same mapping, and their
deep comparison under isEqual is true. -/
theorem c7_merge_assoc (fa fb fc : Fields) (m r1 r2 : Value)
    (hwa : WFv (.vobj fa) = true) (hna : nanFree (.vobj fa) = true)
    (hwb : WFv (.vobj fb) = true) (hnb : nanFree (.vobj fb) = true)
    (hwc : WFv (.vobj fc) = true) (hnc : nanFree (.vobj fc) = true)
    (h1 : merge (.vobj fa) [.vobj fb] = .ok m)
    (h2 : merge m [.vobj fc] = .ok r1)
    (h3 : merge (.vobj fa) [.vobj fb, .vobj fc] = .ok r2) :
    r1 = r2 ∧ isEqual r1 r2 = true := by
  simp [merge, isObjectLike, toFields] at h1
  subst h1
  simp [merge, isObjectLike, toFields] at h2 h3
  subst h2
  subst h3
  have ha : nodupF fa = true ∧ WFfields fa = true := by simpa [WFv] using hwa
  have hb : nodupF fb = true ∧ WFfields fb = true := by simpa [WFv] using hwb
  have hc : nodupF fc = true ∧ WFfields fc = true := by simpa [WFv] using hwc
  have hna' : nanFreeFields fa = true := by simpa [nanFree] using hna
  have hnb' : nanFreeFields fb = true := by simpa [nanFree] using hnb
  have hnc' : nanFreeFields fc = true := by simpa [nanFree] using hnc
  have g1 := mergeEntries_good fb fa ha.1 ha.2 hna' hb.2 hnb'
  have g2 := mergeEntries_good fc (mergeEntries fa fb) g1.1 g1.2.1 g1.2.2 hc.2 hnc'
  refine ⟨rfl, isEqual_refl _ ?_ ?_⟩
  · simp only [nanFree]
    exact g2.2.2
  · simp only [WFv]
    simp [g2.1, g2.2.1]

/-- C7 witness: associativity at three disjoint singleton mappings. -/
theorem c7_merge_assoc_witness :
    (Value.vobj [("a", .vnum (.int 1)), ("b", .vnum (.int 2)), ("c", .vnum (.int 3))] =
      Value.vobj [("a", .vnum (.int 1)), ("b", .vnum (.int 2)), ("c", .vnum (.int 3))]) ∧
    isEqual
      (.vobj [("a", .vnum (.int 1)), ("b", .vnum (.int 2)), ("c", .vnum (.int 3))])
      (.vobj [("a", .vnum (.int 1)), ("b", .vnum (.int 2)), ("c", .vnum (.int 3))]) = true :=
  c7_merge_assoc [("a", .vnum (.int 1))] [("b", .vnum (.int 2))] [("c", .vnum (.int 3))]
    (.vobj [("a", .vnum (.int 1)), ("b", .vnum (.int 2))])
    (.vobj [("a", .vnum (.int 1)), ("b", .vnum (.int 2)), ("c", .vnum (.int 3))])
    (.vobj [("a", .vnum (.int 1)), ("b", .vnum (.int 2)), ("c", .vnum (.int 3))])
    rfl rfl rfl rfl rfl rfl rfl rfl rfl

/-- C8: get distinguishes a stored null from an absent key — universally,
for a single final segment the resolved value is returned unless it is
undefined, in which case (and only then) the supplied default is
returned; in particular get(a maps-to-null, "a", "D") returns null while
get(empty, "a", "D") returns "D". -/
theorem c8_get_default_distinction :
    (∀ (f : Fields) (k : String) (d : Value),
      get (.vobj f) (.arr [k]) d =
        .ok (if isUndefV (lookupD f k) then d else lookupD f k)) ∧
    get (.vobj [("a", .vnull)]) (.str "a") (.vstr "D") = .ok .vnull ∧
    get (.vobj []) (.str "a") (.vstr "D") = .ok (.vstr "D") := by
  refine ⟨?_, rfl, rfl⟩
  intro f k d
  simp [get, isObjectLike, PathArg.segments, getLoop, isNullV, isUndefV, indexV]

/-- C10: isEqual returns true for any two object-typed, non-null,
non-array values with no own enumerable keys, regardless of their
internal state; in particular two dates carrying different instants
compare equal. -/
theorem c10_empty_objects_equal (a b : Value)
    (ha1 : isObjectLike a = true) (ha2 : isArrV a = false) (ha3 : objKeys a = [])
    (hb1 : isObjectLike b = true) (hb2 : isArrV b = false) (hb3 : objKeys b = []) :
    isEqual a b = true := by
  cases a with
  | vundefined => simp [isObjectLike] at ha1
  | vnull => simp [isObjectLike] at ha1
  | vbool b2 => simp [isObjectLike] at ha1
  | vnum m => simp [isObjectLike] at ha1
  | vstr s => simp [isObjectLike] at ha1
  | varr xs => simp [isArrV] at ha2
  | vdate t =>
      cases b with
      | vundefined => simp [isObjectLike] at hb1
      | vnull => simp [isObjectLike] at hb1
      | vbool b2 => simp [isObjectLike] at hb1
      | vnum m => simp [isObjectLike] at hb1
      | vstr s => simp [isObjectLike] at hb1
      | varr ys => simp [isArrV] at hb2
      | vdate t2 => rfl
      | vobj g =>
          have hg : g = [] := by simpa [objKeys, toFields] using hb3
          subst hg
          rfl
  | vobj f =>
      have hf : f = [] := by simpa [objKeys, toFields] using ha3
      subst hf
      cases b with
      | vundefined => simp [isObjectLike] at hb1
      | vnull => simp [isObjectLike] at hb1
      | vbool b2 => simp [isObjectLike] at hb1
      | vnum m => simp [isObjectLike] at hb1
      | vstr s => simp [isObjectLike] at hb1
      | varr ys => simp [isArrV] at hb2
      | vdate t2 => rfl
      | vobj g =>
          have hg : g = [] := by simpa [objKeys, toFields] using hb3
          subst hg
          rfl

/-- C10 witness: two dates with different instants are isEqual. -/
theorem c10_empty_objects_equal_witness :
    isEqual (.vdate 0) (.vdate 99) = true :=
  c10_empty_objects_equal (.vdate 0) (.vdate 99) rfl rfl rfl rfl rfl rfl

end ObjUtils
